import Mathlib

/-!
Verification development for `playlist_to_spotify.py`.

The Python source is shallowly embedded: each parser works on the list of
lines of the input file (file IO stays outside the model), the Spotify
client methods are modelled with an explicit oracle for the remote service,
and Python string operations (`strip`, `split(sep, 1)`, `startswith`,
`lower`, `pathlib.Path` name handling) are re-implemented over `List Char`
following CPython semantics for the ASCII inputs this program handles.
-/

set_option maxHeartbeats 1000000

namespace PlaylistToSpotify

/-- Python whitespace characters stripped by `str.strip()` (ASCII part). -/
def isPySpace (c : Char) : Bool :=
  c = ' ' || c = '\t' || c = '\n' || c = '\r' || c = '\x0b' || c = '\x0c'

/-- `str.strip()` on the character list: drop whitespace from both ends. -/
def stripList (l : List Char) : List Char :=
  ((l.dropWhile isPySpace).reverse.dropWhile isPySpace).reverse

/-- Python `s.strip()`. -/
def pyStrip (s : String) : String :=
  String.mk (stripList s.data)

/-- Split at the first occurrence of `sep`, returning the parts before and
after it; `none` when `sep` does not occur.  `splitFirst sep cs = some _`
is exactly Python `sep in s`, and the parts are `s.split(sep, 1)`. -/
def splitFirst (sep : List Char) : List Char → Option (List Char × List Char)
  | [] => if sep.isPrefixOf ([] : List Char) then some ([], []) else none
  | c :: rest =>
    if sep.isPrefixOf (c :: rest) then some ([], (c :: rest).drop sep.length)
    else
      match splitFirst sep rest with
      | some (pre, post) => some (c :: pre, post)
      | none => none

/-- Python `s.split(sep, 1)` when it yields two parts (i.e. `sep in s`). -/
def pySplitOnce (sep s : String) : Option (String × String) :=
  match splitFirst sep.data s.data with
  | some (pre, post) => some (String.mk pre, String.mk post)
  | none => none

/-- Python `s.startswith(pre)`. -/
def pyStartsWith (s pre : String) : Bool :=
  pre.data.isPrefixOf s.data

/-- Python `s.lower()` (ASCII). -/
def pyLower (s : String) : String :=
  String.mk (s.data.map Char.toLower)

/-- Python `str.split("/")` keeping empty fields (used by `pathlib`). -/
def splitSlash : List Char → List (List Char)
  | [] => [[]]
  | c :: rest =>
    let r := splitSlash rest
    if c = '/' then [] :: r
    else
      match r with
      | h :: t => (c :: h) :: t
      | [] => [[c]]

/-- `pathlib.Path(p).name`: the final path component (empty and `.`
components are dropped by `PurePath` parsing; the root yields `""`). -/
def pathName (p : String) : String :=
  match ((splitSlash p.data).filter (fun c => c ≠ [] ∧ c ≠ ['.'])).getLast? with
  | some n => String.mk n
  | none => ""

/-- Index of the last `'.'` in a character list, if any. -/
def rfindDotAux : List Char → Nat → Option Nat → Option Nat
  | [], _, acc => acc
  | c :: rest, i, acc => rfindDotAux rest (i + 1) (if c = '.' then some i else acc)

/-- Index of the last `'.'` in a character list, if any. -/
def rfindDot (cs : List Char) : Option Nat :=
  rfindDotAux cs 0 none

/-- `pathlib.Path(p).stem`: the name with its extension removed; the dot
must be neither the first nor the last character of the name (CPython's
`0 < i < len(name) - 1` rule). -/
def pathStem (p : String) : String :=
  match rfindDot (pathName p).data with
  | some i =>
    if 0 < i ∧ i < (pathName p).data.length - 1 then String.mk ((pathName p).data.take i)
    else pathName p
  | none => pathName p

/-- `pathlib.Path(p).suffix`: the extension, with the same dot rule. -/
def pathSuffix (p : String) : String :=
  match rfindDot (pathName p).data with
  | some i =>
    if 0 < i ∧ i < (pathName p).data.length - 1 then String.mk ((pathName p).data.drop i)
    else ""
  | none => ""

/-- A parsed track reference `{"artist": ..., "title": ...}`. -/
structure Track where
  artist : String
  title : String
deriving DecidableEq

/-- Build a track from an `#EXTINF` info string: split once on `" - "`
into stripped artist/title, else empty artist and the stripped info
(source lines 39-46). -/
def trackOfInfo (info : String) : Track :=
  match pySplitOnce " - " info with
  | some (a, t) => ⟨pyStrip a, pyStrip t⟩
  | none => ⟨"", pyStrip info⟩

/-- Build a track from a file-name stem: split once on `" - "` into
stripped artist/title, else empty artist and the stem itself, unstripped
(source lines 54-61). -/
def trackOfStem (f : String) : Track :=
  match pySplitOnce " - " f with
  | some (a, t) => ⟨pyStrip a, pyStrip t⟩
  | none => ⟨"", f⟩

/-- Attempt of `re.search(r"#EXTINF:\d+,(.+)", line)` at one position:
the anchor, a nonempty maximal digit run, a comma, then a nonempty rest. -/
def matchExtinfAt (cs : List Char) : Option (List Char) :=
  if "#EXTINF:".data.isPrefixOf cs then
    if (cs.drop "#EXTINF:".data.length).takeWhile Char.isDigit = [] then none
    else
      match (cs.drop "#EXTINF:".data.length).drop
          ((cs.drop "#EXTINF:".data.length).takeWhile Char.isDigit).length with
      | [] => none
      | c :: info => if c = ',' ∧ info ≠ [] then some info else none
  else none

/-- `re.search(r"#EXTINF:\d+,(.+)", line)`: leftmost matching position. -/
def extinfSearch : List Char → Option (List Char)
  | [] => none
  | c :: rest =>
    match matchExtinfAt (c :: rest) with
    | some info => some info
    | none => extinfSearch rest

/-- The line loop of `PlaylistReader.read_m3u` (source lines 31-61);
the `Option Track` argument is the `current_track` pending slot. -/
def readM3uGo : List String → Option Track → List Track
  | [], _ => []
  | l :: rest, pending =>
    if pyStartsWith (pyStrip l) "#EXTINF:" then
      match extinfSearch (pyStrip l).data with
      | some info => readM3uGo rest (some (trackOfInfo (String.mk info)))
      | none => readM3uGo rest pending
    else if pyStrip l ≠ "" ∧ pyStartsWith (pyStrip l) "#" = false then
      match pending with
      | some t => t :: readM3uGo rest none
      | none => trackOfStem (pathStem (pyStrip l)) :: readM3uGo rest none
    else readM3uGo rest pending

/-- `PlaylistReader.read_m3u` on the file's lines. -/
def read_m3u (lines : List String) : List Track :=
  readM3uGo lines none

/-- One non-blank line of `PlaylistReader.read_txt` (source lines 77-84):
probe `" - "` first, then `" by "` with swapped roles, else the whole
stripped line as title. -/
def txtTrack (line : String) : Track :=
  match pySplitOnce " - " line with
  | some (a, t) => ⟨pyStrip a, pyStrip t⟩
  | none =>
    match pySplitOnce " by " line with
    | some (t, a) => ⟨pyStrip a, pyStrip t⟩
    | none => ⟨"", pyStrip line⟩

/-- `PlaylistReader.read_txt` on the file's lines. -/
def read_txt : List String → List Track
  | [] => []
  | l :: rest =>
    if pyStrip l = "" then read_txt rest
    else txtTrack (pyStrip l) :: read_txt rest

/-- Python `a or b` on strings: `a` when truthy (nonempty), else `b`. -/
def pyOr (a b : String) : String :=
  if a = "" then b else a

/-- One row of `PlaylistReader.read_csv` (source lines 95-113).  A row of
`csv.DictReader` is observed through `row.get(key, "")`, modelled as a
total function from header name to cell value with `""` for absence. -/
def read_csv_row (row : String → String) : Option Track :=
  if pyOr (row "title") (pyOr (row "Title") (pyOr (row "TITLE") (pyOr (row "track")
      (pyOr (row "Track") (pyOr (row "song") (row "Song")))))) ≠ "" then
    some ⟨pyStrip (pyOr (row "artist") (pyOr (row "Artist") (row "ARTIST"))),
      pyStrip (pyOr (row "title") (pyOr (row "Title") (pyOr (row "TITLE") (pyOr (row "track")
        (pyOr (row "Track") (pyOr (row "song") (row "Song")))))))⟩
  else none

/-- `PlaylistReader.read_csv` over the parsed data rows. -/
def read_csv (rows : List (String → String)) : List Track :=
  rows.filterMap read_csv_row

/-- Header priority list for the artist column (source lines 97-101). -/
def ARTIST_KEYS : List String := ["artist", "Artist", "ARTIST"]

/-- Header priority list for the title column (source lines 102-110). -/
def TITLE_KEYS : List String := ["title", "Title", "TITLE", "track", "Track", "song", "Song"]

/-- First non-empty value of `row` over a key priority list, default `""`
(the behaviour the spec describes for column resolution). -/
def firstNonEmpty (row : String → String) : List String → String
  | [] => ""
  | k :: ks => if row k ≠ "" then row k else firstNonEmpty row ks

/-- `f"spotify:track:{track_id}"` (source line 196). -/
def trackUri (track_id : String) : String :=
  "spotify:track:" ++ track_id

/-- `for i in range(0, len(track_ids), 100): track_ids[i : i + 100]`
(source lines 194-195): the batches of at most 100 items. -/
def chunks100 {α : Type} (l : List α) : List (List α) :=
  (List.range ((l.length + 99) / 100)).map (fun k => (l.drop (100 * k)).take 100)

/-- The per-call URI lists of `add_tracks_to_playlist`, in call order. -/
def uriBatches (track_ids : List String) : List (List String) :=
  (chunks100 track_ids).map (List.map trackUri)

/-- The pure content of `add_tracks_to_playlist`: its batches. -/
def addTracksBatches (track_ids : List String) : List (List String) :=
  uriBatches track_ids

/-- Observable outcome of `SpotifyManager.add_tracks_to_playlist`:
the returned flag, the URIs actually appended to the remote playlist
(in order), and the per-call URI lists issued to the service. -/
structure AddResult where
  success : Bool
  applied : List String
  issued : List (List String)
deriving DecidableEq

/-- The batch loop of `add_tracks_to_playlist` (source lines 194-201):
`ok` tells whether a `playlist_add_items` call succeeds or raises.  A
raising call appends nothing and aborts the loop (the `except` clause),
so later batches are never issued and earlier ones stay applied. -/
def addGo (ok : List String → Bool) : List (List String) → AddResult
  | [] => ⟨true, [], []⟩
  | b :: rest =>
    if ok b then
      ⟨(addGo ok rest).success, b ++ (addGo ok rest).applied, b :: (addGo ok rest).issued⟩
    else ⟨false, [], [b]⟩

/-- `SpotifyManager.add_tracks_to_playlist` under the call oracle `ok`. -/
def add_tracks_to_playlist (ok : List String → Bool) (track_ids : List String) : AddResult :=
  addGo ok (uriBatches track_ids)

/-- The query built by `SpotifyManager.search_track` (source lines 142-145). -/
def searchQuery (artist title : String) : String :=
  if artist ≠ "" then "track:" ++ title ++ " artist:" ++ artist
  else "track:" ++ title

/-- `SpotifyManager.search_track` (source lines 139-154): `remote q n` is
`sp.search(q=q, type="track", limit=n)`, returning the item id list or an
error; an error is logged and yields `none`, never re-raised. -/
def search_track (remote : String → Nat → Except String (List String))
    (artist title : String) : Option String :=
  match remote (searchQuery artist title) 1 with
  | Except.ok items => items.head?
  | Except.error _ => none

/-- `SpotifyManager.is_track_in_playlist` with all pages fetched: the
remote playlist is its list of (non-null) track ids, and the method is
id membership with short-circuit (source lines 203-221). -/
def is_track_in_playlist (playlistIds : List String) (track_id : String) : Bool :=
  playlistIds.contains track_id

/-- The search/filter loop of `main` (source lines 325-341): for each
parsed track in order, search; on a hit with skip-duplicates enabled,
drop ids already in the remote playlist; accumulate the rest.  Returns
`found_tracks`.  The remote playlist is only read here, never written,
so it stays fixed for the whole loop. -/
def reconcile (search : Track → Option String) (skipDup : Bool)
    (playlistIds : List String) : List Track → List String
  | [] => []
  | t :: rest =>
    match search t with
    | some id =>
      if skipDup && is_track_in_playlist playlistIds id then
        reconcile search skipDup playlistIds rest
      else id :: reconcile search skipDup playlistIds rest
    | none => reconcile search skipDup playlistIds rest

/-- The final action taken by `main` after the search loop
(source lines 354-371). -/
inductive FinalAction where
  | dryReport (count : Nat)
  | append (ids : List String)
  | noTracks
deriving DecidableEq

/-- Source lines 354-371: with found tracks, dry-run reports the count,
otherwise `add_tracks_to_playlist` is called on them. -/
def finalStep (dryRun : Bool) (found : List String) : FinalAction :=
  if found.isEmpty then FinalAction.noTracks
  else if dryRun then FinalAction.dryReport found.length
  else FinalAction.append found

/-- Whether the final action invokes `add_tracks_to_playlist`. -/
def appendInvoked : FinalAction → Bool
  | FinalAction.append _ => true
  | _ => false

/-- Effect of the final action on the remote playlist's id list. -/
def playlistAfter (a : FinalAction) (playlistIds : List String) : List String :=
  match a with
  | FinalAction.append ids => playlistIds ++ ids
  | _ => playlistIds

/-- The three supported input formats. -/
inductive FileFormat where
  | m3u
  | txt
  | csv
deriving DecidableEq

/-- Extension dispatch of `main` (source lines 271-283):
`Path(file_path).suffix.lower()` compared against the three extensions;
anything else is the unsupported-format fatal exit (`none`). -/
def dispatchFormat (path : String) : Option FileFormat :=
  if pyLower (pathSuffix path) = ".m3u" then some FileFormat.m3u
  else if pyLower (pathSuffix path) = ".txt" then some FileFormat.txt
  else if pyLower (pathSuffix path) = ".csv" then some FileFormat.csv
  else none

/-! ### Helper lemmas -/

theorem flatten_range_map_take (α : Type) (l : List α) (m : Nat) :
    (((List.range m).map fun k => (l.drop (100 * k)).take 100)).flatten = l.take (100 * m) := by
  induction m with
  | zero => simp
  | succ n ih =>
    rw [List.range_succ, List.map_append, List.flatten_append, ih]
    simp only [List.map_cons, List.map_nil, List.flatten_cons, List.flatten_nil,
      List.append_nil]
    rw [Nat.mul_succ, List.take_add]

theorem chunks100_flatten (α : Type) (l : List α) : (chunks100 l).flatten = l := by
  unfold chunks100
  rw [flatten_range_map_take]
  apply List.take_of_length_le
  have h1 := Nat.div_add_mod (l.length + 99) 100
  have h2 : (l.length + 99) % 100 < 100 := Nat.mod_lt _ (by omega)
  omega

theorem chunks100_mem_length (α : Type) (l : List α) (b : List α)
    (hb : b ∈ chunks100 l) : 0 < b.length ∧ b.length ≤ 100 := by
  unfold chunks100 at hb
  obtain ⟨k, hk, hbk⟩ := List.mem_map.mp hb
  rw [List.mem_range] at hk
  have h1 := Nat.div_add_mod (l.length + 99) 100
  have h2 : (l.length + 99) % 100 < 100 := Nat.mod_lt _ (by omega)
  subst hbk
  simp only [List.length_take, List.length_drop]
  omega

theorem chunks100_dropLast_length (α : Type) (l : List α) (b : List α)
    (hb : b ∈ (chunks100 l).dropLast) : b.length = 100 := by
  unfold chunks100 at hb
  rcases hq : (l.length + 99) / 100 with _ | n
  · rw [hq] at hb; simp at hb
  · rw [hq, List.range_succ, List.map_append] at hb
    simp only [List.map_cons, List.map_nil, List.dropLast_concat] at hb
    obtain ⟨k, hk, hbk⟩ := List.mem_map.mp hb
    rw [List.mem_range] at hk
    have h1 := Nat.div_add_mod (l.length + 99) 100
    have h2 : (l.length + 99) % 100 < 100 := Nat.mod_lt _ (by omega)
    subst hbk
    simp only [List.length_take, List.length_drop]
    omega

/-! ### Claims -/

/-- Claim C5: `add_tracks_to_playlist` partitions its input into
consecutive batches split exactly at 100-item boundaries (every batch
except possibly the last has exactly 100 items, none is empty or larger),
and the concatenation of the batches in call order is the input list with
each id mapped to the URI `spotify:track:<id>`. -/
theorem add_tracks_batches_exact (track_ids : List String) :
    (addTracksBatches track_ids).flatten = track_ids.map trackUri ∧
    (∀ b ∈ (addTracksBatches track_ids).dropLast, b.length = 100) ∧
    (∀ b ∈ addTracksBatches track_ids, 0 < b.length ∧ b.length ≤ 100) := by
  refine ⟨?_, ?_, ?_⟩
  · show ((chunks100 track_ids).map (List.map trackUri)).flatten = _
    rw [← List.map_flatten, chunks100_flatten]
  · intro b hb
    show b.length = 100
    have : (addTracksBatches track_ids).dropLast
        = (chunks100 track_ids).dropLast.map (List.map trackUri) := by
      show ((chunks100 track_ids).map (List.map trackUri)).dropLast = _
      rw [List.map_dropLast]
    rw [this] at hb
    obtain ⟨b0, hb0, hbb⟩ := List.mem_map.mp hb
    subst hbb
    rw [List.length_map]
    exact chunks100_dropLast_length _ _ _ hb0
  · intro b hb
    obtain ⟨b0, hb0, hbb⟩ := List.mem_map.mp hb
    subst hbb
    rw [List.length_map]
    exact chunks100_mem_length _ _ _ hb0

/-- Claim C5 witness: the theorem applied at the two-id input. -/
theorem add_tracks_batches_exact_witness :
    (addTracksBatches ["a", "b"]).flatten = ["a", "b"].map trackUri ∧
    (0 < (["spotify:track:a", "spotify:track:b"] : List String).length ∧
      (["spotify:track:a", "spotify:track:b"] : List String).length ≤ 100) :=
  ⟨(add_tracks_batches_exact ["a", "b"]).1,
    (add_tracks_batches_exact ["a", "b"]).2.2
      ["spotify:track:a", "spotify:track:b"] (by decide)⟩

theorem addGo_success_iff (ok : List String → Bool) (bs : List (List String)) :
    (addGo ok bs).success = true ↔ ∀ b ∈ bs, ok b = true := by
  induction bs with
  | nil => simp [addGo]
  | cons b rest ih =>
    cases hok : ok b with
    | true => simp [addGo, hok, ih]
    | false =>
      simp only [addGo, hok, Bool.false_eq_true, if_false, List.forall_mem_cons]
      simp [hok]

theorem addGo_fail (ok : List String → Bool) (bad : List String)
    (post : List (List String)) (hbad : ok bad = false) :
    ∀ pre : List (List String), (∀ b ∈ pre, ok b = true) →
      addGo ok (pre ++ bad :: post) = ⟨false, pre.flatten, pre ++ [bad]⟩ := by
  intro pre
  induction pre with
  | nil => intro _; simp [addGo, hbad]
  | cons p rest ih =>
    intro hpre
    have hp : ok p = true := hpre p (by simp)
    have hrest : ∀ b ∈ rest, ok b = true := fun b hb => hpre b (by simp [hb])
    simp [addGo, hp, ih hrest]

/-- Claim C6: `add_tracks_to_playlist` returns true iff every batch call
succeeds; when the batches decompose as successful ones, then a failing
one, then the rest, it returns false, exactly the batches before the
failure are applied to the remote playlist (no rollback), and no batch
after the failing one is issued. -/
theorem add_tracks_failure_semantics (ok : List String → Bool) (track_ids : List String) :
    ((add_tracks_to_playlist ok track_ids).success = true ↔
      ∀ b ∈ uriBatches track_ids, ok b = true) ∧
    (∀ pre bad post, uriBatches track_ids = pre ++ bad :: post →
      (∀ b ∈ pre, ok b = true) → ok bad = false →
      add_tracks_to_playlist ok track_ids = ⟨false, pre.flatten, pre ++ [bad]⟩) := by
  constructor
  · exact addGo_success_iff ok (uriBatches track_ids)
  · intro pre bad post hdec hpre hbad
    show addGo ok (uriBatches track_ids) = _
    rw [hdec]
    exact addGo_fail ok bad post hbad pre hpre

/-- Claim C6 witness: the theorem applied with a single batch whose call
fails, and with an always-succeeding oracle. -/
theorem add_tracks_failure_semantics_witness :
    add_tracks_to_playlist (fun _ => false) ["a"]
      = ⟨false, [], [["spotify:track:a"]]⟩ ∧
    (add_tracks_to_playlist (fun _ => true) ["a"]).success = true :=
  ⟨(add_tracks_failure_semantics (fun _ => false) ["a"]).2
      [] ["spotify:track:a"] [] (by decide) (by decide) (by decide),
    (add_tracks_failure_semantics (fun _ => true) ["a"]).1.mpr (by decide)⟩

/-- Claim C7: `search_track` builds its query as
`track:<title> artist:<artist>` when the artist is non-empty and as
`track:<title>` when it is empty, issues the one remote call with limit 1,
and returns the first result's id, or `none` on zero results or when the
remote call raises (the error is only logged; the function still returns). -/
theorem search_track_query_and_result (remote : String → Nat → Except String (List String))
    (artist title : String) :
    (artist ≠ "" → searchQuery artist title = "track:" ++ title ++ " artist:" ++ artist) ∧
    (artist = "" → searchQuery artist title = "track:" ++ title) ∧
    (∀ items, remote (searchQuery artist title) 1 = Except.ok items →
      search_track remote artist title = items.head?) ∧
    (∀ e, remote (searchQuery artist title) 1 = Except.error e →
      search_track remote artist title = none) := by
  refine ⟨?_, ?_, ?_, ?_⟩
  · intro h; simp [searchQuery, h]
  · intro h; simp [searchQuery, h]
  · intro items h; simp [search_track, h]
  · intro e h; simp [search_track, h]

/-- Claim C7 witness: the theorem applied at a non-empty artist with an
oracle returning one result, and at a raising oracle. -/
theorem search_track_query_and_result_witness :
    searchQuery "Queen" "Bohemian Rhapsody" = "track:Bohemian Rhapsody artist:Queen" ∧
    search_track (fun _ _ => Except.ok ["id123"]) "Queen" "Bohemian Rhapsody" = some "id123" ∧
    search_track (fun _ _ => Except.error "boom") "Queen" "Bohemian Rhapsody" = none :=
  ⟨((search_track_query_and_result (fun _ _ => Except.ok ["id123"])
        "Queen" "Bohemian Rhapsody").1 (by decide)).trans (by decide),
    ((search_track_query_and_result (fun _ _ => Except.ok ["id123"])
        "Queen" "Bohemian Rhapsody").2.2.1 ["id123"] rfl).trans rfl,
    (search_track_query_and_result (fun _ _ => Except.error "boom")
        "Queen" "Bohemian Rhapsody").2.2.2 "boom" rfl⟩

/-- Claim C9: with dry-run set and at least one resolved id, the final
step reports the count that would have been added, never invokes
`add_tracks_to_playlist`, and leaves the remote playlist unchanged. -/
theorem dry_run_no_append (found playlistIds : List String) (h : found ≠ []) :
    finalStep true found = FinalAction.dryReport found.length ∧
    appendInvoked (finalStep true found) = false ∧
    playlistAfter (finalStep true found) playlistIds = playlistIds := by
  have he : found.isEmpty = false := by
    cases found with
    | nil => exact absurd rfl h
    | cons a l => rfl
  refine ⟨?_, ?_, ?_⟩ <;> simp [finalStep, he, appendInvoked, playlistAfter]

/-- Claim C9 witness: a dry run with 3 resolved ids reports 3 and the
playlist is untouched. -/
theorem dry_run_no_append_witness :
    finalStep true ["t1", "t2", "t3"] = FinalAction.dryReport 3 ∧
    appendInvoked (finalStep true ["t1", "t2", "t3"]) = false ∧
    playlistAfter (finalStep true ["t1", "t2", "t3"]) ["x"] = ["x"] :=
  ⟨(dry_run_no_append ["t1", "t2", "t3"] ["x"] (by decide)).1,
    (dry_run_no_append ["t1", "t2", "t3"] ["x"] (by decide)).2.1,
    (dry_run_no_append ["t1", "t2", "t3"] ["x"] (by decide)).2.2⟩

/-- Claim C10: format dispatch lowercases the file's extension before
comparison, so `.M3U`, `.Txt`, `.CSV` are dispatched like their lowercase
forms, and exactly the paths whose lowercased suffix is none of `.m3u`,
`.txt`, `.csv` hit the unsupported-format fatal exit. -/
theorem dispatch_lowercases_extension (path : String) :
    (dispatchFormat path = none ↔
      pyLower (pathSuffix path) ≠ ".m3u" ∧ pyLower (pathSuffix path) ≠ ".txt" ∧
        pyLower (pathSuffix path) ≠ ".csv") ∧
    (pyLower (pathSuffix path) = ".m3u" → dispatchFormat path = some FileFormat.m3u) ∧
    (pyLower (pathSuffix path) = ".txt" → dispatchFormat path = some FileFormat.txt) ∧
    (pyLower (pathSuffix path) = ".csv" → dispatchFormat path = some FileFormat.csv) ∧
    dispatchFormat "song.M3U" = some FileFormat.m3u ∧
    dispatchFormat "song.Txt" = some FileFormat.txt ∧
    dispatchFormat "song.CSV" = some FileFormat.csv := by
  refine ⟨?_, ?_, ?_, ?_, by decide, by decide, by decide⟩
  · unfold dispatchFormat
    split_ifs with h1 h2 h3 <;> simp_all
  · intro h; simp [dispatchFormat, h]
  · intro h; simp [dispatchFormat, h]
  · intro h
    unfold dispatchFormat
    rw [h]
    simp

/-- Claim C10 witness: the theorem's conditional branches applied at a
concrete uppercase extension. -/
theorem dispatch_lowercases_extension_witness :
    dispatchFormat "b.TXT" = some FileFormat.txt :=
  (dispatch_lowercases_extension "b.TXT").2.2.1 (by decide)

theorem is_track_in_playlist_iff (playlistIds : List String) (id : String) :
    is_track_in_playlist playlistIds id = true ↔ id ∈ playlistIds := by
  simp [is_track_in_playlist, List.contains_iff_exists_mem_beq, beq_iff_eq]

theorem reconcile_mem_cons (search : Track → Option String) (playlistIds : List String)
    (t0 : Track) (rest : List Track) (id : String)
    (h : id ∈ reconcile search true playlistIds rest) :
    id ∈ reconcile search true playlistIds (t0 :: rest) := by
  show id ∈ (match search t0 with
    | some id0 =>
      if true && is_track_in_playlist playlistIds id0 then
        reconcile search true playlistIds rest
      else id0 :: reconcile search true playlistIds rest
    | none => reconcile search true playlistIds rest)
  cases hs : search t0 with
  | none => exact h
  | some id0 =>
    by_cases hc : (true && is_track_in_playlist playlistIds id0) = true
    · simpa [hc] using h
    · simp only [hc, if_false]
      exact List.mem_cons_of_mem _ h

theorem reconcile_found_mem (search : Track → Option String) (playlistIds : List String)
    (tracks : List Track) :
    ∀ t ∈ tracks, ∀ id, search t = some id →
      id ∈ playlistIds ∨ id ∈ reconcile search true playlistIds tracks := by
  induction tracks with
  | nil => intro t ht; cases ht
  | cons t0 rest ih =>
    intro t ht id hs
    cases List.mem_cons.mp ht with
    | inl he =>
      subst he
      show _ ∨ id ∈ (match search t with
        | some id0 =>
          if true && is_track_in_playlist playlistIds id0 then
            reconcile search true playlistIds rest
          else id0 :: reconcile search true playlistIds rest
        | none => reconcile search true playlistIds rest)
      rw [hs]
      by_cases hc : is_track_in_playlist playlistIds id = true
      · exact Or.inl ((is_track_in_playlist_iff _ _).mp hc)
      · simp only [Bool.true_and, hc, if_false]
        exact Or.inr (List.mem_cons_self _ _)
    | inr hm =>
      rcases ih t hm id hs with h | h
      · exact Or.inl h
      · exact Or.inr (reconcile_mem_cons search playlistIds t0 rest id h)

theorem reconcile_skip_all (search : Track → Option String) (playlistIds : List String)
    (tracks : List Track)
    (h : ∀ t ∈ tracks, ∀ id, search t = some id → id ∈ playlistIds) :
    reconcile search true playlistIds tracks = [] := by
  induction tracks with
  | nil => rfl
  | cons t0 rest ih =>
    have hrest : reconcile search true playlistIds rest = [] :=
      ih (fun t ht id hs => h t (List.mem_cons_of_mem _ ht) id hs)
    show (match search t0 with
      | some id0 =>
        if true && is_track_in_playlist playlistIds id0 then
          reconcile search true playlistIds rest
        else id0 :: reconcile search true playlistIds rest
      | none => reconcile search true playlistIds rest) = []
    cases hs : search t0 with
    | none => exact hrest
    | some id0 =>
      have hmem : id0 ∈ playlistIds := h t0 (List.mem_cons_self _ _) id0 hs
      have hc : is_track_in_playlist playlistIds id0 = true :=
        (is_track_in_playlist_iff _ _).mpr hmem
      simp only [hc, Bool.true_and, if_true]
      exact hrest

/-- Claim C8: running the reconciliation with skip-duplicates enabled a
second time against the playlist as the first run left it (same input,
same search results, all remote calls succeeding) accumulates nothing —
every id appended by the first run is caught by the membership check —
so the playlist gains no second copy of any id. -/
theorem skip_duplicates_idempotent (search : Track → Option String)
    (playlistIds : List String) (tracks : List Track) :
    reconcile search true (playlistIds ++ reconcile search true playlistIds tracks) tracks
      = [] ∧
    (playlistIds ++ reconcile search true playlistIds tracks) ++
        reconcile search true (playlistIds ++ reconcile search true playlistIds tracks) tracks
      = playlistIds ++ reconcile search true playlistIds tracks := by
  have h1 : reconcile search true
      (playlistIds ++ reconcile search true playlistIds tracks) tracks = [] := by
    apply reconcile_skip_all
    intro t ht id hs
    rcases reconcile_found_mem search playlistIds tracks t ht id hs with h | h
    · exact List.mem_append_left _ h
    · exact List.mem_append_right _ h
  exact ⟨h1, by rw [h1, List.append_nil]⟩

/-- Claim C2: for a non-blank line, `read_txt` applies the probes in
order — a line containing `" - "` splits once into (artist, title); else
a line containing `" by "` splits once into (title, artist), roles
swapped; else the whole line is the title with empty artist — with every
extracted field whitespace-trimmed; and the line
`"Bohemian Rhapsody by Queen"` yields artist `"Queen"`,
title `"Bohemian Rhapsody"`. -/
theorem read_txt_probe_order (l : String) (h : pyStrip l ≠ "") :
    (∀ a t, pySplitOnce " - " (pyStrip l) = some (a, t) →
      read_txt [l] = [Track.mk (pyStrip a) (pyStrip t)]) ∧
    (∀ t a, pySplitOnce " - " (pyStrip l) = none →
      pySplitOnce " by " (pyStrip l) = some (t, a) →
      read_txt [l] = [Track.mk (pyStrip a) (pyStrip t)]) ∧
    (pySplitOnce " - " (pyStrip l) = none → pySplitOnce " by " (pyStrip l) = none →
      read_txt [l] = [Track.mk "" (pyStrip (pyStrip l))]) ∧
    read_txt ["Bohemian Rhapsody by Queen"] = [Track.mk "Queen" "Bohemian Rhapsody"] := by
  have hread : read_txt [l] = [txtTrack (pyStrip l)] := by
    simp [read_txt, h]
  refine ⟨?_, ?_, ?_, by decide⟩
  · intro a t hs
    rw [hread]
    simp [txtTrack, hs]
  · intro t a h1 h2
    rw [hread]
    simp [txtTrack, h1, h2]
  · intro h1 h2
    rw [hread]
    simp [txtTrack, h1, h2]

/-- Claim C2 witness: the theorem's `" by "` branch at the scenario line. -/
theorem read_txt_probe_order_witness :
    read_txt ["Bohemian Rhapsody by Queen"] = [Track.mk "Queen" "Bohemian Rhapsody"] :=
  ((read_txt_probe_order "Bohemian Rhapsody by Queen" (by decide)).2.1
      "Bohemian Rhapsody" "Queen" (by decide) (by decide)).trans (by decide)

/-- Claim C4: a CSV row resolves its artist by the header priority list
`artist`, `Artist`, `ARTIST` (first non-empty wins, default empty) and
its title by `title`, `Title`, `TITLE`, `track`, `Track`, `song`, `Song`;
a row with no resolvable title contributes nothing to the output; and the
`Title;Artist` / `Yesterday;The Beatles` scenario row yields
{artist: "The Beatles", title: "Yesterday"}. -/
theorem read_csv_header_priority (row : String → String) :
    read_csv_row row = (if firstNonEmpty row TITLE_KEYS = "" then none
      else some (Track.mk (pyStrip (firstNonEmpty row ARTIST_KEYS))
        (pyStrip (firstNonEmpty row TITLE_KEYS)))) ∧
    (∀ rows, firstNonEmpty row TITLE_KEYS = "" →
      read_csv (row :: rows) = read_csv rows) ∧
    read_csv [fun k => if k = "Title" then "Yesterday"
        else if k = "Artist" then "The Beatles" else ""]
      = [Track.mk "The Beatles" "Yesterday"] := by
  have hmain : read_csv_row row = (if firstNonEmpty row TITLE_KEYS = "" then none
      else some (Track.mk (pyStrip (firstNonEmpty row ARTIST_KEYS))
        (pyStrip (firstNonEmpty row TITLE_KEYS)))) := by
    have hor : ∀ a b : String, pyOr a b = if a ≠ "" then a else b := by
      intro a b
      simp [pyOr, ite_not]
    have hid : ∀ a : String, (if a = "" then "" else a) = a := by
      intro a
      split_ifs with ha
      · exact ha.symm
      · rfl
    simp only [read_csv_row, firstNonEmpty, ARTIST_KEYS, TITLE_KEYS, hor, ite_not]
    by_cases h1 : row "title" = "" <;> by_cases h2 : row "Title" = "" <;>
      by_cases h3 : row "TITLE" = "" <;> by_cases h4 : row "track" = "" <;>
      by_cases h5 : row "Track" = "" <;> by_cases h6 : row "song" = "" <;>
      by_cases h7 : row "Song" = "" <;>
      simp [h1, h2, h3, h4, h5, h6, h7, hid]
  refine ⟨hmain, ?_, by decide⟩
  intro rows htitle
  show List.filterMap read_csv_row (row :: rows) = List.filterMap read_csv_row rows
  rw [List.filterMap_cons]
  rw [hmain, if_pos htitle]

/-- Claim C4 witness: an all-empty row is excluded entirely, ahead of the
scenario row. -/
theorem read_csv_header_priority_witness :
    read_csv ((fun _ => "") :: [fun k => if k = "Title" then "Yesterday"
        else if k = "Artist" then "The Beatles" else ""])
      = [Track.mk "The Beatles" "Yesterday"] :=
  ((read_csv_header_priority (fun _ => "")).2.1
      [fun k => if k = "Title" then "Yesterday"
        else if k = "Artist" then "The Beatles" else ""] (by decide)).trans
    ((read_csv_header_priority (fun _ => "")).2.2)

theorem string_mk_data (s : String) : String.mk s.data = s := by
  cases s
  rfl

theorem string_ne_empty_iff (s : String) : s ≠ "" ↔ s.data ≠ [] := by
  cases s with
  | mk d =>
    constructor
    · intro h hd
      exact h (by rw [show d = ([] : List Char) from hd])
    · intro h he
      exact h (congrArg String.data he)

theorem takeWhile_digit_append (ds rest : List Char)
    (hds : ∀ c ∈ ds, c.isDigit = true) :
    (ds ++ ',' :: rest).takeWhile Char.isDigit = ds := by
  induction ds with
  | nil =>
    simp only [List.nil_append]
    rw [List.takeWhile_cons]
    simp [show (',' : Char).isDigit = false from rfl]
  | cons c t ih =>
    have hc := hds c (by simp)
    simp only [List.cons_append]
    rw [List.takeWhile_cons, hc]
    simp only [if_true]
    rw [ih (fun x hx => hds x (by simp [hx]))]

theorem matchExtinfAt_wf (ds info : List Char) (hds : ds ≠ [])
    (hdig : ∀ c ∈ ds, c.isDigit = true) (hinfo : info ≠ []) :
    matchExtinfAt ("#EXTINF:".data ++ (ds ++ ',' :: info)) = some info := by
  have hpre : "#EXTINF:".data.isPrefixOf ("#EXTINF:".data ++ (ds ++ ',' :: info)) = true := by
    rw [ List.isPrefixOf_iff_prefix]
    exact ⟨_, rfl⟩
  have hdrop : ("#EXTINF:".data ++ (ds ++ ',' :: info)).drop "#EXTINF:".data.length
      = ds ++ ',' :: info := List.drop_left _ _
  have htake : (ds ++ ',' :: info).takeWhile Char.isDigit = ds :=
    takeWhile_digit_append ds info hdig
  unfold matchExtinfAt
  rw [hpre, if_pos rfl, hdrop, htake]
  rw [if_neg hds]
  rw [List.drop_left]
  show (if (',' : Char) = ',' ∧ info ≠ [] then some info else none) = some info
  rw [if_pos ⟨rfl, hinfo⟩]

theorem extinfSearch_cons (c : Char) (rest info : List Char)
    (h : matchExtinfAt (c :: rest) = some info) :
    extinfSearch (c :: rest) = some info := by
  unfold extinfSearch
  rw [h]

theorem extinfSearch_wf (ds info : List Char) (hds : ds ≠ [])
    (hdig : ∀ c ∈ ds, c.isDigit = true) (hinfo : info ≠ []) :
    extinfSearch ("#EXTINF:".data ++ (ds ++ ',' :: info)) = some info := by
  have hcons : "#EXTINF:".data ++ (ds ++ ',' :: info)
      = '#' :: ("EXTINF:".data ++ (ds ++ ',' :: info)) := rfl
  rw [hcons]
  apply extinfSearch_cons
  rw [← hcons]
  exact matchExtinfAt_wf ds info hds hdig hinfo

theorem startsWith_hash_of_extinf (s : String)
    (h : pyStartsWith s "#EXTINF:" = true) : pyStartsWith s "#" = true := by
  unfold pyStartsWith at h ⊢
  rw [ List.isPrefixOf_iff_prefix] at h ⊢
  exact List.IsPrefix.trans ⟨"EXTINF:".data, rfl⟩ h

/-- Claim C3: in a playlist-with-metadata file, a well-formed
`#EXTINF:<digits>,<info>` line immediately followed by a path line yields
exactly one Track Reference carrying the metadata's artist/title (split
once on `" - "`, otherwise empty artist and the whole info as title), and
a path line with no preceding metadata yields exactly one Track Reference
derived from the path's file-name stem, split the same way. -/
theorem read_m3u_meta_and_path (lineMeta : String) (ds : List Char) (info p : String)
    (hdata : lineMeta.data = "#EXTINF:".data ++ (ds ++ ',' :: info.data))
    (hstable : pyStrip lineMeta = lineMeta)
    (hds : ds ≠ []) (hdig : ∀ c ∈ ds, c.isDigit = true) (hinfo : info ≠ "")
    (hp1 : pyStrip p ≠ "") (hp2 : pyStartsWith (pyStrip p) "#" = false) :
    read_m3u [lineMeta, p] = [trackOfInfo info] ∧
    read_m3u [p] = [trackOfStem (pathStem (pyStrip p))] := by
  have hstarts : pyStartsWith lineMeta "#EXTINF:" = true := by
    unfold pyStartsWith
    rw [hdata, List.isPrefixOf_iff_prefix]
    exact ⟨_, rfl⟩
  have hsearch : extinfSearch (pyStrip lineMeta).data = some info.data := by
    rw [hstable, hdata]
    exact extinfSearch_wf ds info.data hds hdig
      ((string_ne_empty_iff info).mp hinfo)
  have hpE : pyStartsWith (pyStrip p) "#EXTINF:" = false := by
    cases hh : pyStartsWith (pyStrip p) "#EXTINF:" with
    | false => rfl
    | true =>
      rw [startsWith_hash_of_extinf _ hh] at hp2
      cases hp2
  constructor
  · show readM3uGo [lineMeta, p] none = _
    rw [readM3uGo, if_pos (by rw [hstable]; exact hstarts), hsearch]
    simp only
    rw [string_mk_data]
    rw [readM3uGo, if_neg (by rw [hpE]; simp), if_pos ⟨hp1, hp2⟩]
    rfl
  · show readM3uGo [p] none = _
    rw [readM3uGo, if_neg (by rw [hpE]; simp), if_pos ⟨hp1, hp2⟩]
    rfl

/-- Claim C3 witness: the theorem at the spec's scenario
`#EXTINF:123,Daft Punk - One More Time` + `/music/a.mp3`, and at the
bare path line. -/
theorem read_m3u_meta_and_path_witness :
    read_m3u ["#EXTINF:123,Daft Punk - One More Time", "/music/a.mp3"]
      = [Track.mk "Daft Punk" "One More Time"] ∧
    read_m3u ["/music/a.mp3"] = [Track.mk "" "a"] :=
  ⟨((read_m3u_meta_and_path "#EXTINF:123,Daft Punk - One More Time"
        ['1', '2', '3'] "Daft Punk - One More Time" "/music/a.mp3"
        (by decide) (by decide) (by decide) (by decide) (by decide)
        (by decide) (by decide)).1).trans (by decide),
    ((read_m3u_meta_and_path "#EXTINF:123,Daft Punk - One More Time"
        ['1', '2', '3'] "Daft Punk - One More Time" "/music/a.mp3"
        (by decide) (by decide) (by decide) (by decide) (by decide)
        (by decide) (by decide)).2).trans (by decide)⟩

theorem dropWhile_head_false {α : Type} (p : α → Bool) :
    ∀ (l : List α) (c : α) (t : List α), l.dropWhile p = c :: t → p c = false := by
  intro l
  induction l with
  | nil =>
    intro c t h
    simp [List.dropWhile] at h
  | cons a l ih =>
    intro c t h
    rw [List.dropWhile_cons] at h
    by_cases ha : p a = true
    · rw [if_pos ha] at h
      exact ih c t h
    · rw [if_neg ha] at h
      injection h with h1 h2
      subst h1
      exact Bool.not_eq_true _ |>.mp ha

theorem mem_dropWhile_of_false {α : Type} (p : α → Bool) :
    ∀ (l : List α) (c : α), c ∈ l → p c = false → c ∈ l.dropWhile p := by
  intro l
  induction l with
  | nil => intro c h; cases h
  | cons a t ih =>
    intro c hc hp
    rw [List.dropWhile_cons]
    by_cases ha : p a = true
    · rw [if_pos ha]
      cases List.mem_cons.mp hc with
      | inl he => subst he; rw [hp] at ha; cases ha
      | inr hm => exact ih c hm hp
    · rw [if_neg ha]
      exact hc

theorem getLast?_append_right {α : Type} (l1 l2 : List α) (h : l2 ≠ []) :
    (l1 ++ l2).getLast? = l2.getLast? := by
  rw [List.getLast?_append]
  cases hl : l2.getLast? with
  | none => exact absurd (List.getLast?_eq_none_iff.mp hl) h
  | some a => rfl

theorem stripList_ne_nil (l : List Char) (c : Char) (hc : c ∈ l)
    (hs : isPySpace c = false) : stripList l ≠ [] := by
  intro h
  have h1 : c ∈ l.dropWhile isPySpace := mem_dropWhile_of_false _ l c hc hs
  have h2 : c ∈ (l.dropWhile isPySpace).reverse := List.mem_reverse.mpr h1
  have h3 : c ∈ (l.dropWhile isPySpace).reverse.dropWhile isPySpace :=
    mem_dropWhile_of_false _ _ c h2 hs
  unfold stripList at h
  rw [List.reverse_eq_nil_iff] at h
  rw [h] at h3
  cases h3

theorem stripList_head_false (l : List Char) (c : Char) (t : List Char)
    (h : stripList l = c :: t) : isPySpace c = false := by
  have hsfx : (l.dropWhile isPySpace).reverse.dropWhile isPySpace
      <:+ (l.dropWhile isPySpace).reverse := List.dropWhile_suffix _
  have hpre : stripList l <+: l.dropWhile isPySpace := by
    have h2 := List.reverse_prefix.mpr hsfx
    rw [List.reverse_reverse] at h2
    exact h2
  obtain ⟨u, hu⟩ := hpre
  rw [h] at hu
  exact dropWhile_head_false isPySpace l c (t ++ u) hu.symm

theorem stripList_getLast_false (l : List Char) (h : stripList l ≠ []) :
    ∃ c, (stripList l).getLast? = some c ∧ isPySpace c = false := by
  unfold stripList at h ⊢
  cases hXc : (l.dropWhile isPySpace).reverse.dropWhile isPySpace with
  | nil => rw [hXc] at h; exact absurd rfl h
  | cons c t =>
    refine ⟨c, ?_, dropWhile_head_false isPySpace _ c t hXc⟩
    rw [List.getLast?_reverse]
    rfl

theorem splitFirst_eq (sep : List Char) :
    ∀ (cs pre post : List Char), splitFirst sep cs = some (pre, post) →
      cs = pre ++ sep ++ post := by
  intro cs
  induction cs with
  | nil =>
    intro pre post h
    unfold splitFirst at h
    by_cases hp : sep.isPrefixOf ([] : List Char) = true
    · rw [if_pos hp] at h
      obtain ⟨u, hu⟩ := List.isPrefixOf_iff_prefix.mp hp
      have hsep : sep = [] := (List.append_eq_nil.mp hu).1
      simp only [Option.some.injEq, Prod.mk.injEq] at h
      obtain ⟨h1, h2⟩ := h
      subst h1
      subst h2
      simp [hsep]
    · rw [if_neg hp] at h
      cases h
  | cons c rest ih =>
    intro pre post h
    unfold splitFirst at h
    by_cases hp : sep.isPrefixOf (c :: rest) = true
    · rw [if_pos hp] at h
      simp only [Option.some.injEq, Prod.mk.injEq] at h
      obtain ⟨h1, h2⟩ := h
      subst h1
      obtain ⟨u, hu⟩ := List.isPrefixOf_iff_prefix.mp hp
      have hdrop : (c :: rest).drop sep.length = u := by
        rw [← hu]
        exact List.drop_left _ _
      rw [hdrop] at h2
      subst h2
      rw [← hu]
      simp
    · rw [if_neg hp] at h
      cases hres : splitFirst sep rest with
      | none => rw [hres] at h; cases h
      | some pq =>
        obtain ⟨a, b⟩ := pq
        rw [hres] at h
        simp only [Option.some.injEq, Prod.mk.injEq] at h
        obtain ⟨h1, h2⟩ := h
        subst h1
        subst h2
        rw [show rest = a ++ sep ++ b from ih a b hres]
        rfl

theorem txtTrack_title_stripped_ne (l0 : String) (h : pyStrip l0 ≠ "") :
    (txtTrack (pyStrip l0)).title ≠ "" := by
  have hm : stripList l0.data ≠ [] := (string_ne_empty_iff (pyStrip l0)).mp h
  obtain ⟨ce, hce, hcs⟩ := stripList_getLast_false l0.data hm
  cases hm0 : stripList l0.data with
  | nil => exact absurd hm0 hm
  | cons c0 t0 =>
    have hc0 : isPySpace c0 = false := stripList_head_false l0.data c0 t0 hm0
    cases hs1 : pySplitOnce " - " (pyStrip l0) with
    | some at1 =>
      obtain ⟨a, tt⟩ := at1
      simp only [txtTrack, hs1]
      unfold pySplitOnce at hs1
      cases hsf : splitFirst " - ".data (pyStrip l0).data with
      | none => rw [hsf] at hs1; cases hs1
      | some pq =>
        obtain ⟨pre, post⟩ := pq
        rw [hsf] at hs1
        simp only [Option.some.injEq, Prod.mk.injEq] at hs1
        obtain ⟨h1, h2⟩ := hs1
        subst h1
        subst h2
        have heq : stripList l0.data = pre ++ " - ".data ++ post :=
          splitFirst_eq " - ".data (pyStrip l0).data pre post hsf
        rw [(string_ne_empty_iff _)]
        show stripList post ≠ []
        cases post with
        | nil =>
          rw [List.append_nil] at heq
          have hlast : (stripList l0.data).getLast? = some ' ' := by
            rw [heq, getLast?_append_right pre " - ".data (by decide)]
            rfl
          rw [hlast] at hce
          injection hce with he
          subst he
          exact absurd hcs (by decide)
        | cons q qs =>
          have hlast : (stripList l0.data).getLast? = (q :: qs).getLast? := by
            rw [heq]
            exact getLast?_append_right _ _ (by simp)
          rw [hlast] at hce
          have hmem : ce ∈ q :: qs := List.mem_of_getLast?_eq_some hce
          exact stripList_ne_nil _ ce hmem hcs
    | none =>
      cases hs2 : pySplitOnce " by " (pyStrip l0) with
      | some ta =>
        obtain ⟨tt, a⟩ := ta
        simp only [txtTrack, hs1, hs2]
        unfold pySplitOnce at hs2
        cases hsf : splitFirst " by ".data (pyStrip l0).data with
        | none => rw [hsf] at hs2; cases hs2
        | some pq =>
          obtain ⟨pre, post⟩ := pq
          rw [hsf] at hs2
          simp only [Option.some.injEq, Prod.mk.injEq] at hs2
          obtain ⟨h1, h2⟩ := hs2
          subst h1
          subst h2
          have heq : stripList l0.data = pre ++ " by ".data ++ post :=
            splitFirst_eq " by ".data (pyStrip l0).data pre post hsf
          rw [(string_ne_empty_iff _)]
          show stripList pre ≠ []
          cases pre with
          | nil =>
            rw [List.nil_append] at heq
            rw [hm0] at heq
            injection heq with he1 he2
            subst he1
            exact absurd hc0 (by decide)
          | cons q qs =>
            rw [hm0] at heq
            have heq2 : c0 :: t0 = q :: (qs ++ " by ".data ++ post) := heq
            injection heq2 with he1 he2
            subst he1
            exact stripList_ne_nil _ c0 (List.mem_cons_self _ _) hc0
      | none =>
        simp only [txtTrack, hs1, hs2]
        rw [(string_ne_empty_iff _)]
        show stripList (stripList l0.data) ≠ []
        have hmem : ce ∈ stripList l0.data := List.mem_of_getLast?_eq_some hce
        exact stripList_ne_nil _ ce hmem hcs

/-- Claim C1 counterexample: `read_m3u` on the single path line
`/music/A - .mp3` (file-name stem `"A - "`) emits a Track Reference with
an empty title, and `read_csv` on a row whose only title cell is a single
space emits one too, so not every parser output has a non-empty title. -/
theorem parser_titles_counterexample :
    (Track.mk "A" "" ∈ read_m3u ["/music/A - .mp3"] ∧ (Track.mk "A" "").title = "") ∧
    (Track.mk "" "" ∈ read_csv [fun k => if k = "Title" then " " else ""] ∧
      (Track.mk "" "").title = "") :=
  ⟨⟨by decide, rfl⟩, ⟨by decide, rfl⟩⟩

/-- Claim C1 (amended): every Track Reference produced by `read_txt` has
a non-empty title (artist may be empty); `read_m3u` and `read_csv` do not
guarantee this — a path line whose file-name stem ends in `" - "` or a
whitespace-only title cell yields an empty title after trimming. -/
theorem read_txt_titles_nonempty (lines : List String) (t : Track)
    (h : t ∈ read_txt lines) : t.title ≠ "" := by
  induction lines with
  | nil => cases h
  | cons l rest ih =>
    by_cases hl : pyStrip l = ""
    · rw [read_txt, if_pos hl] at h
      exact ih h
    · rw [read_txt, if_neg hl] at h
      cases List.mem_cons.mp h with
      | inl he => subst he; exact txtTrack_title_stripped_ne l hl
      | inr hm => exact ih hm

/-- Claim C8 witness: the theorem applied with a concrete search oracle;
the first run appends the resolved id, the second finds it in the
playlist and accumulates nothing. -/
theorem skip_duplicates_idempotent_witness :
    reconcile (fun t => if t.title = "A" then some "id1" else none) true
        ([] ++ reconcile (fun t => if t.title = "A" then some "id1" else none) true []
          [Track.mk "" "A"])
        [Track.mk "" "A"] = [] :=
  (skip_duplicates_idempotent (fun t => if t.title = "A" then some "id1" else none)
    [] [Track.mk "" "A"]).1

/-- Claim C1 witness: the amended theorem applied at a concrete line. -/
theorem read_txt_titles_nonempty_witness :
    Track.mk "" "Song" ∈ read_txt ["Song"] ∧ (Track.mk "" "Song").title ≠ "" :=
  ⟨by decide, read_txt_titles_nonempty ["Song"] (Track.mk "" "Song") (by decide)⟩

end PlaylistToSpotify
